import Mathlib

/-!
Shallow embedding of the consistency core of the Atrius multi-device
file-synchronization repository: the data model and invariant checker
(src/model.rs), the in-memory metadata store (src/local_store.rs), the
locking and conflict engine (src/lock.rs), version history and retention
(src/versioning.rs), and the transfer progress tracker
(src/file_transfer.rs).

Modelling conventions. Ulid identifiers are Nat, because the core only
compares them for equality. Chrono timestamps and SystemTime instants are
Int, Duration is Nat. A Rust HashMap is an association list; iteration
order of the model is list order, and the theorems that depend on the
unspecified HashMap iteration order carry uniqueness hypotheses. A Rust
HashSet of chunk offsets is Finset Nat. Functions that internally call
Ulid new or Utc now receive the fresh value as an extra argument. A Rust
panic, such as out-of-bounds vector indexing, is modelled by Option.none.
Functions taking mutable references return the result value paired with
the possibly mutated state, so that mutations surviving an error path
stay observable.
-/

namespace Atrius

abbrev FileId := Nat
abbrev DeviceId := Nat
abbrev VersionId := Nat
abbrev LockId := Nat
abbrev TransferSessionId := Nat

/-- Resumable transfer chunk metadata. -/
structure ChunkRef where
  offset : Nat
  length : Nat
  hash : String
deriving DecidableEq

/-- Lightweight version record, shared. -/
structure VersionRecord where
  version_id : VersionId
  file_id : FileId
  parent_version_id : Option VersionId
  origin_device_id : DeviceId
  timestamp : Int
  content_hash : String
  size_bytes : Nat
  chunks : List ChunkRef
deriving DecidableEq

inductive LockMode where
  | Exclusive
deriving DecidableEq

/-- Per-file lock metadata, shared. -/
structure LockRecord where
  lock_id : LockId
  file_id : FileId
  owner_device_id : DeviceId
  owner_user_id : String
  mode : LockMode
  acquired_at : Int
  auto_lock : Bool
  expires_at : Option Int
deriving DecidableEq

inductive DeviceFileStateKind where
  | Absent
  | AvailableRemote
  | Pulling
  | Ready
  | Pushing
  | LockBlocked
  | Conflict
  | Error
deriving DecidableEq

/-- Per-device state vector entry, shared. -/
structure DeviceFileState where
  device_id : DeviceId
  state : DeviceFileStateKind
  known_head_version_id : Option VersionId
  last_seen_at : Int
  last_error : Option String
deriving DecidableEq

/-- Encryption envelope metadata. -/
structure EncryptionInfo where
  key_id : String
  algo : String
  iv_salt : Option String
deriving DecidableEq

/-- File-level shared record. -/
structure FileRecord where
  file_id : FileId
  origin_device_id : DeviceId
  created_at : Int
  head_version_id : VersionId
  versions : List VersionRecord
  lock : Option LockRecord
  device_states : List DeviceFileState
  encryption : EncryptionInfo
deriving DecidableEq

structure PathBinding where
  path : String
  last_seen_at : Int
  writable : Bool
deriving DecidableEq

/-- Hydration states; the middle source variant is named for the token it
stands for, spelled out. -/
inductive Hydration where
  | FullyPresent
  | PartiallyPresent
  | None
deriving DecidableEq

inductive Consent where
  | Approved
  | Revoked
deriving DecidableEq

inductive PinPreference where
  | None
  | KeepLatest
deriving DecidableEq

inductive AutoLockPreference where
  | OnEdit
  | Manual
deriving DecidableEq

/-- Local-only registry entry. -/
structure LocalRegistryEntry where
  file_id : FileId
  paths : List PathBinding
  local_version_id : Option VersionId
  hydration : Hydration
  consent : Consent
  pin : PinPreference
  auto_lock_preference : AutoLockPreference
  last_error : Option String
deriving DecidableEq

inductive TransferDirection where
  | Push
  | Pull
deriving DecidableEq

inductive TransferStatus where
  | InProgress
  | Completed
  | Failed (reason : String)
deriving DecidableEq

/-- Transfer session reporting snapshot. -/
structure TransferSession where
  transfer_session_id : TransferSessionId
  file_id : FileId
  direction : TransferDirection
  from_device_id : DeviceId
  to_device_id : DeviceId
  active_chunks : List ChunkRef
  retry_count : Nat
  status : TransferStatus
deriving DecidableEq

/-- Errors when validating invariants, from src/model.rs. -/
inductive ModelError where
  | MissingHead (id : VersionId)
  | DuplicateVersion (id : VersionId)
  | MultipleLocks
  | MissingDevice (id : DeviceId)
deriving DecidableEq

/-- First key that repeats, in scan order, carrying the set of already
seen keys; models the HashSet insert loop of assert_file_invariants. -/
def firstDupKey (key : α → Nat) : List α → List Nat → Option Nat
  | [], _ => none
  | x :: rest, seen =>
    if key x ∈ seen then some (key x) else firstDupKey key rest (key x :: seen)

/-- Validate invariants for a shared FileRecord, src/model.rs
assert_file_invariants. A duplicate version id is reported first, in scan
order, then a missing head, then a duplicate device id. The lock field is
deliberately not inspected, mirroring the source, where the lock block
contains only comments. -/
def assert_file_invariants (r : FileRecord) : Except ModelError Unit :=
  match firstDupKey (fun v => v.version_id) r.versions [] with
  | some d => .error (.DuplicateVersion d)
  | none =>
    if r.versions.any (fun v => v.version_id == r.head_version_id) then
      match firstDupKey (fun s => s.device_id) r.device_states [] with
      | some d => .error (.MissingDevice d)
      | none => .ok ()
    else .error (.MissingHead r.head_version_id)

/-- In-memory local metadata store, src/local_store.rs; the two HashMaps
are modelled as association lists. -/
structure LocalMetadataStore where
  files : List (FileId × FileRecord)
  registry : List (FileId × LocalRegistryEntry)
deriving DecidableEq

inductive LocalMetadataError where
  | NotFound (id : FileId)
  | PathAlreadyBound (id : FileId)
  | Model (e : ModelError)
deriving DecidableEq

/-- HashMap get on the association-list model. -/
def alGet (l : List (Nat × α)) (k : Nat) : Option α :=
  (l.find? (fun p => p.1 == k)).map (fun p => p.2)

/-- HashMap insert, or in-place update through get_mut, on the
association-list model: replaces the value under an existing key, else
appends the pair. -/
def alSet (l : List (Nat × α)) (k : Nat) (v : α) : List (Nat × α) :=
  if l.any (fun p => p.1 == k) then
    l.map (fun p => if p.1 == k then (k, v) else p)
  else l ++ [(k, v)]

/-- Insert or replace a FileRecord after validating invariants; the
validation runs before the map is touched. -/
def upsert_file_record (st : LocalMetadataStore) (record : FileRecord) :
    Except LocalMetadataError Unit × LocalMetadataStore :=
  match assert_file_invariants record with
  | .error e => (.error (.Model e), st)
  | .ok _ => (.ok (), { st with files := alSet st.files record.file_id record })

/-- Insert or replace the local registry entry for a file, unconditional. -/
def upsert_registry_entry (st : LocalMetadataStore) (entry : LocalRegistryEntry) :
    Except LocalMetadataError Unit × LocalMetadataStore :=
  (.ok (), { st with registry := alSet st.registry entry.file_id entry })

/-- ASCII lowercase folding of one character, as in Rust
to_ascii_lowercase. -/
def asciiLower (c : Char) : Char :=
  if 'A' ≤ c ∧ c ≤ 'Z' then Char.ofNat (c.toNat + 32) else c

/-- Rust str eq_ignore_ascii_case. -/
def eqIgnoreAsciiCase (s t : String) : Bool :=
  s.data.map asciiLower == t.data.map asciiLower

/-- The conflicting other file id for a path, if any: the first registry
entry of a different file holding the path case-insensitively. The source
iterates a HashMap in unspecified order; the model iterates in list
order. -/
def pathConflict (st : LocalMetadataStore) (file_id : FileId) (path : String) : Option FileId :=
  st.registry.findSome? (fun pr =>
    if pr.1 != file_id && pr.2.paths.any (fun b => eqIgnoreAsciiCase b.path path) then
      some pr.1
    else none)

/-- Update the first binding with this exact path, as the iter_mut find
in bind_path does. -/
def updateFirstBinding (paths : List PathBinding) (path : String) (now : Int)
    (writable : Bool) : List PathBinding :=
  match paths with
  | [] => []
  | b :: rest =>
    if b.path == path then { b with last_seen_at := now, writable := writable } :: rest
    else b :: updateFirstBinding rest path now writable

/-- The entry update performed by a successful bind_path: refresh the
matching existing binding, else append a new one. -/
def bindApply (entry : LocalRegistryEntry) (path : String) (writable : Bool) (now : Int) :
    LocalRegistryEntry :=
  if entry.paths.any (fun b => b.path == path) then
    { entry with paths := updateFirstBinding entry.paths path now writable }
  else
    { entry with paths := entry.paths ++ [{ path := path, last_seen_at := now, writable := writable }] }

/-- Bind or update a path for a file, src/local_store.rs bind_path. The
alias check across other files runs before the own-entry lookup. -/
def bind_path (st : LocalMetadataStore) (file_id : FileId) (path : String) (writable : Bool)
    (now : Int) : Except LocalMetadataError Unit × LocalMetadataStore :=
  match pathConflict st file_id path with
  | some c => (.error (.PathAlreadyBound c), st)
  | none =>
    match alGet st.registry file_id with
    | none => (.error (.NotFound file_id), st)
    | some entry =>
      (.ok (), { st with registry := alSet st.registry file_id (bindApply entry path writable now) })

/-- Remove a path binding; an absent binding is a no-op. -/
def unbind_path (st : LocalMetadataStore) (file_id : FileId) (path : String) :
    Except LocalMetadataError Unit × LocalMetadataStore :=
  match alGet st.registry file_id with
  | none => (.error (.NotFound file_id), st)
  | some entry =>
    let entry' := { entry with paths := entry.paths.filter (fun b => b.path != path) }
    (.ok (), { st with registry := alSet st.registry file_id entry' })

/-- Update local hydration, consent and auto-lock knobs; each is
independently optional. -/
def set_local_preferences (st : LocalMetadataStore) (file_id : FileId)
    (hydration : Option Hydration) (consent : Option Consent)
    (auto_lock : Option AutoLockPreference) :
    Except LocalMetadataError Unit × LocalMetadataStore :=
  match alGet st.registry file_id with
  | none => (.error (.NotFound file_id), st)
  | some entry =>
    let e1 := match hydration with
      | some h => { entry with hydration := h }
      | none => entry
    let e2 := match consent with
      | some c => { e1 with consent := c }
      | none => e1
    let e3 := match auto_lock with
      | some a => { e2 with auto_lock_preference := a }
      | none => e2
    (.ok (), { st with registry := alSet st.registry file_id e3 })

/-- Replace the first device state with a matching device_id, as the
iter_mut find in upsert_device_state does. -/
def updateFirstDeviceState (states : List DeviceFileState) (ds : DeviceFileState) :
    List DeviceFileState :=
  match states with
  | [] => []
  | s :: rest =>
    if s.device_id == ds.device_id then ds :: rest
    else s :: updateFirstDeviceState rest ds

/-- Add or update a device state in the shared record, then re-validate;
the mutation is applied in place, so on a validation error the mutated
record stays in the store. -/
def upsert_device_state (st : LocalMetadataStore) (file_id : FileId) (ds : DeviceFileState) :
    Except LocalMetadataError Unit × LocalMetadataStore :=
  match alGet st.files file_id with
  | none => (.error (.NotFound file_id), st)
  | some record =>
    let record' :=
      if record.device_states.any (fun s => s.device_id == ds.device_id) then
        { record with device_states := updateFirstDeviceState record.device_states ds }
      else
        { record with device_states := record.device_states ++ [ds] }
    let st' := { st with files := alSet st.files file_id record' }
    match assert_file_invariants record' with
    | .error e => (.error (.Model e), st')
    | .ok _ => (.ok (), st')

/-- Advance head to a new version and append it, then re-validate; the
mutation is applied in place, so on a validation error the mutated record
stays in the store. On success an existing registry entry advances its
local_version_id. -/
def append_version (st : LocalMetadataStore) (file_id : FileId) (version_id : VersionId)
    (version_record : VersionRecord) : Except LocalMetadataError Unit × LocalMetadataStore :=
  match alGet st.files file_id with
  | none => (.error (.NotFound file_id), st)
  | some record =>
    let record' := { record with head_version_id := version_id,
                                 versions := record.versions ++ [version_record] }
    let st' := { st with files := alSet st.files file_id record' }
    match assert_file_invariants record' with
    | .error e => (.error (.Model e), st')
    | .ok _ =>
      match alGet st'.registry file_id with
      | some entry =>
        let entry' := { entry with local_version_id := some version_id }
        (.ok (), { st' with registry := alSet st'.registry file_id entry' })
      | none => (.ok (), st')

/-- Wholesale replace of the lock field, then re-validate; the mutation is
applied in place, so on a validation error the mutated record stays in the
store. -/
def set_lock (st : LocalMetadataStore) (file_id : FileId) (lock : Option LockRecord) :
    Except LocalMetadataError Unit × LocalMetadataStore :=
  match alGet st.files file_id with
  | none => (.error (.NotFound file_id), st)
  | some record =>
    let record' := { record with lock := lock }
    let st' := { st with files := alSet st.files file_id record' }
    match assert_file_invariants record' with
    | .error e => (.error (.Model e), st')
    | .ok _ => (.ok (), st')

/-- Update the local last error annotation. -/
def set_local_error (st : LocalMetadataStore) (file_id : FileId) (message : Option String) :
    Except LocalMetadataError Unit × LocalMetadataStore :=
  match alGet st.registry file_id with
  | none => (.error (.NotFound file_id), st)
  | some entry =>
    (.ok (), { st with registry := alSet st.registry file_id { entry with last_error := message } })

inductive LockRequestKind where
  | Manual
  | Auto
deriving DecidableEq

structure LockDenial where
  holder_device : DeviceId
  acquired_at : Int
deriving DecidableEq

inductive LockAcquisition where
  | Acquired (r : LockRecord)
  | Denied (d : LockDenial)
deriving DecidableEq

inductive LockError where
  | MissingFile
  | LockMismatch
deriving DecidableEq

/-- src/lock.rs acquire_lock; the internally minted Ulid and the clock
reading are passed in as fresh_lock_id and now. -/
def acquire_lock (file : FileRecord) (device_id : DeviceId) (user_id : String)
    (_request : LockRequestKind) (auto_lock : Bool) (fresh_lock_id : LockId) (now : Int) :
    Except LockError LockAcquisition :=
  match file.lock with
  | some lk =>
    if lk.file_id != file.file_id then .error .LockMismatch
    else .ok (.Denied { holder_device := lk.owner_device_id, acquired_at := lk.acquired_at })
  | none =>
    .ok (.Acquired { lock_id := fresh_lock_id, file_id := file.file_id,
                     owner_device_id := device_id, owner_user_id := user_id,
                     mode := .Exclusive, acquired_at := now, auto_lock := auto_lock,
                     expires_at := none })

/-- src/lock.rs release_lock: the record is returned possibly cleared; on
the mismatch error it is unchanged. -/
def release_lock (file : FileRecord) (device_id : DeviceId) : Except LockError FileRecord :=
  match file.lock with
  | some lk =>
    if lk.file_id != file.file_id then .error .LockMismatch
    else if lk.owner_device_id == device_id then .ok { file with lock := none }
    else .ok file
  | none => .ok file

inductive ConflictCheck where
  | Allowed
  | Conflict (current_head : VersionId) (base_head : VersionId)
  | LockedBy (device : DeviceId)
deriving DecidableEq

/-- src/lock.rs check_conflict. -/
def check_conflict (file : FileRecord) (caller_device : DeviceId)
    (caller_base_head : VersionId) : ConflictCheck :=
  match file.lock with
  | some lk =>
    if lk.owner_device_id == caller_device then .Allowed
    else .LockedBy lk.owner_device_id
  | none =>
    if caller_base_head == file.head_version_id then .Allowed
    else .Conflict file.head_version_id caller_base_head

/-- Set the first matching device state to LockBlocked. -/
def markFirstLockBlocked : List DeviceFileState → DeviceId → List DeviceFileState
  | [], _ => []
  | s :: rest, d =>
    if s.device_id == d then { s with state := .LockBlocked } :: rest
    else s :: markFirstLockBlocked rest d

/-- src/lock.rs mark_lock_blocked. -/
def mark_lock_blocked (file : FileRecord) (device_id : DeviceId) : FileRecord :=
  { file with device_states := markFirstLockBlocked file.device_states device_id }

/-- Retention policy, src/versioning.rs. -/
structure VersionRetention where
  max_versions : Nat
  max_age : Option Nat
deriving DecidableEq

inductive VersioningError where
  | MissingVersion (id : VersionId)
  | Model (e : ModelError)
deriving DecidableEq

/-- Read-only view of versions in stored order. -/
def list_versions (file : FileRecord) : List VersionRecord := file.versions

/-- src/versioning.rs rollback_to_version: requires the target to exist,
appends the caller-built version and makes it head, then re-validates; the
mutation is in place, so on a validation error the mutated record is
returned with the error. -/
def rollback_to_version (file : FileRecord) (target_version_id : VersionId)
    (new_version : VersionRecord) : Except VersioningError Unit × FileRecord :=
  if file.versions.any (fun v => v.version_id == target_version_id) then
    let file' := { file with versions := file.versions ++ [new_version],
                             head_version_id := new_version.version_id }
    match assert_file_invariants file' with
    | .error e => (.error (.Model e), file')
    | .ok _ => (.ok (), file')
  else (.error (.MissingVersion target_version_id), file)

/-- Rust sort_by_key on the timestamp is a stable ascending sort; a stable
insertion sort computes the identical list and reduces in the kernel. -/
def sortByTimestamp (vs : List VersionRecord) : List VersionRecord :=
  List.insertionSort (fun a b => a.timestamp ≤ b.timestamp) vs

instance : IsTotal VersionRecord (fun a b => a.timestamp ≤ b.timestamp) :=
  ⟨fun a b => le_total a.timestamp b.timestamp⟩

instance : IsTrans VersionRecord (fun a b => a.timestamp ≤ b.timestamp) :=
  ⟨fun _ _ _ hab hbc => le_trans hab hbc⟩

/-- Age phase of apply_retention: keep the head, or a timestamp at least
now minus max_age. The checked_sub clamp to the epoch cannot fire with
unbounded Int instants. -/
def ageStep (file : FileRecord) (policy : VersionRetention) (now : Int) : FileRecord :=
  match policy.max_age with
  | none => file
  | some maxAge =>
    { file with versions := file.versions.filter (fun v =>
        v.version_id == file.head_version_id || decide (now - (maxAge : Int) ≤ v.timestamp)) }

/-- Count phase of apply_retention: when the count exceeds max_versions,
sort ascending by timestamp, take the boundary element at index
length minus max_versions, and keep the head plus everything at or after
the boundary timestamp. Option.none models the panic of the out-of-bounds
indexing, reached exactly when max_versions is zero, because saturating
subtraction then yields the full length as the index. -/
def countStep (file : FileRecord) (maxVersions : Nat) : Option FileRecord :=
  if file.versions.length > maxVersions then
    match (sortByTimestamp file.versions)[file.versions.length - maxVersions]? with
    | none => none
    | some boundary =>
      some { file with versions := (sortByTimestamp file.versions).filter (fun v =>
          v.version_id == file.head_version_id || decide (boundary.timestamp ≤ v.timestamp)) }
  else some file

/-- src/versioning.rs apply_retention: age phase, count phase, then
re-validate; the mutations are in place, so on a validation error the
mutated record is returned with the error, and Option.none models a
panic. -/
def apply_retention (file : FileRecord) (policy : VersionRetention) (now : Int) :
    Option (Except VersioningError Unit × FileRecord) :=
  match countStep (ageStep file policy now) policy.max_versions with
  | none => none
  | some file' =>
    match assert_file_invariants file' with
    | .error e => some (.error (.Model e), file')
    | .ok _ => some (.ok (), file')

/-- Plan of chunks to send or fetch, src/file_transfer.rs. -/
structure TransferPlan where
  file_id : FileId
  version_id : VersionId
  direction : TransferDirection
  chunks : List ChunkRef
deriving DecidableEq

/-- Tracks completed and failed chunks for one resumable transfer; the two
HashSets keyed by chunk offset are modelled as Finsets. -/
structure TransferProgress where
  session_id : TransferSessionId
  started_at : Int
  completed_chunks : Finset Nat
  failed_chunks : Finset Nat
deriving DecidableEq

structure RetryPolicy where
  max_attempts : Nat
  backoff : Nat
deriving DecidableEq

inductive TransferError where
  | ChunkMissing (offset : Nat)
  | MaxRetries (offset : Nat)
  | Completed
deriving DecidableEq

/-- Mark a chunk as done; also clears any failed record for the offset. -/
def TransferProgress.mark_done (p : TransferProgress) (offset : Nat) : TransferProgress :=
  { p with completed_chunks := insert offset p.completed_chunks,
           failed_chunks := p.failed_chunks.erase offset }

/-- Mark a chunk failure for retry tracking, unless already completed. -/
def TransferProgress.mark_failed (p : TransferProgress) (offset : Nat) : TransferProgress :=
  if offset ∈ p.completed_chunks then p
  else { p with failed_chunks := insert offset p.failed_chunks }

/-- True iff every plan chunk offset is completed. -/
def TransferProgress.is_complete (p : TransferProgress) (plan : TransferPlan) : Bool :=
  plan.chunks.all (fun c => decide (c.offset ∈ p.completed_chunks))

/-- The first chunk, in plan order, not yet completed. -/
def next_chunk (plan : TransferPlan) (progress : TransferProgress) : Option ChunkRef :=
  plan.chunks.find? (fun c => !decide (c.offset ∈ progress.completed_chunks))

/-- Decide if a chunk can be retried under the policy. -/
def can_retry (offset : Nat) (attempt : Nat) (policy : RetryPolicy) :
    Except TransferError Unit :=
  if attempt ≥ policy.max_attempts then .error (.MaxRetries offset) else .ok ()

/-- Compose a reporting snapshot; active_chunks is the full plan. -/
def to_session (plan : TransferPlan) (progress : TransferProgress)
    (fromDevice toDevice : DeviceId) (status : TransferStatus) : TransferSession :=
  { transfer_session_id := progress.session_id, file_id := plan.file_id,
    direction := plan.direction, from_device_id := fromDevice, to_device_id := toDevice,
    active_chunks := plan.chunks, retry_count := progress.failed_chunks.card,
    status := status }

/-- The in-place mutation append_version applies before re-validating:
head set to the new id, the record pushed. -/
def appendMutated (rec : FileRecord) (vid : Nat) (vr : VersionRecord) : FileRecord :=
  { rec with head_version_id := vid, versions := rec.versions ++ [vr] }

/-- The in-place mutation rollback_to_version applies before
re-validating: the new version pushed and made head. -/
def rollbackMutated (r : FileRecord) (nv : VersionRecord) : FileRecord :=
  { r with versions := r.versions ++ [nv], head_version_id := nv.version_id }

/-! Concrete fixtures used by counterexamples and witnesses. -/

/-- Shared encryption envelope for fixtures. -/
def encFx : EncryptionInfo := { key_id := "k", algo := "AES-256-GCM", iv_salt := none }

/-- A version of file 1 with a given id and timestamp. -/
def verFx (vid : Nat) (ts : Int) : VersionRecord :=
  { version_id := vid, file_id := 1, parent_version_id := none, origin_device_id := 9,
    timestamp := ts, content_hash := "h", size_bytes := 1, chunks := [] }

/-- File 1 with single version 10 as head, no lock, no device states. -/
def recFx : FileRecord :=
  { file_id := 1, origin_device_id := 9, created_at := 0, head_version_id := 10,
    versions := [verFx 10 0], lock := none, device_states := [], encryption := encFx }

/-- A store holding only file 1. -/
def stFx : LocalMetadataStore := { files := [(1, recFx)], registry := [] }

/-- A lock whose file_id 2 disagrees with record file_id 1. -/
def lkMisFx : LockRecord :=
  { lock_id := 7, file_id := 2, owner_device_id := 5, owner_user_id := "u",
    mode := .Exclusive, acquired_at := 3, auto_lock := false, expires_at := none }

/-- A record whose own lock has a mismatched file_id, as the store accepts. -/
def recMisFx : FileRecord := { recFx with lock := some lkMisFx }

/-- A version of file 3 with a given id and timestamp. -/
def ver3Fx (vid : Nat) (ts : Int) : VersionRecord :=
  { version_id := vid, file_id := 3, parent_version_id := none, origin_device_id := 9,
    timestamp := ts, content_hash := "h", size_bytes := 1, chunks := [] }

/-- File 3 whose head is the oldest of three distinctly timestamped
versions. -/
def rec3Fx : FileRecord :=
  { file_id := 3, origin_device_id := 9, created_at := 0, head_version_id := 1,
    versions := [ver3Fx 1 0, ver3Fx 2 10, ver3Fx 3 20], lock := none,
    device_states := [], encryption := encFx }

/-- Keep at most two versions, no age limit. -/
def pol3Fx : VersionRetention := { max_versions := 2, max_age := none }

/-- Keep zero versions, no age limit; drives the count phase index out of
bounds. -/
def pol0Fx : VersionRetention := { max_versions := 0, max_age := none }

/-- An unlocked record for lock-engine witnesses. -/
def recLockFx : FileRecord :=
  { file_id := 4, origin_device_id := 9, created_at := 0, head_version_id := 40,
    versions := [{ version_id := 40, file_id := 4, parent_version_id := none,
                   origin_device_id := 9, timestamp := 0, content_hash := "h",
                   size_bytes := 1, chunks := [] }],
    lock := none, device_states := [], encryption := encFx }

/-- A lock on file 4 owned by device 5, agreeing with recLockFx. -/
def lkOkFx : LockRecord :=
  { lock_id := 8, file_id := 4, owner_device_id := 5, owner_user_id := "u",
    mode := .Exclusive, acquired_at := 3, auto_lock := false, expires_at := none }

/-- recLockFx carrying the matching lock lkOkFx. -/
def recLockedFx : FileRecord := { recLockFx with lock := some lkOkFx }

/-- Registry entry for file 1 binding one path. -/
def regEntryFx : LocalRegistryEntry :=
  { file_id := 1, paths := [{ path := "A", last_seen_at := 0, writable := true }],
    local_version_id := none, hydration := .FullyPresent, consent := .Approved,
    pin := .None, auto_lock_preference := .OnEdit, last_error := none }

/-- Registry entry for file 2 with no paths yet. -/
def regEntry2Fx : LocalRegistryEntry :=
  { file_id := 2, paths := [], local_version_id := none, hydration := .FullyPresent,
    consent := .Approved, pin := .None, auto_lock_preference := .OnEdit, last_error := none }

/-- A store whose registry binds path A to file 1 and holds file 2 with no
paths. -/
def stRegFx : LocalMetadataStore :=
  { files := [], registry := [(1, regEntryFx), (2, regEntry2Fx)] }

/-- A transfer plan with chunks at offsets 0 and 10. -/
def planFx : TransferPlan :=
  { file_id := 1, version_id := 10, direction := .Push,
    chunks := [{ offset := 0, length := 10, hash := "h0" },
               { offset := 10, length := 10, hash := "h1" }] }

/-- A fresh transfer progress. -/
def progFx : TransferProgress :=
  { session_id := 1, started_at := 0, completed_chunks := ∅, failed_chunks := ∅ }

/-! Lemmas about the invariant checker. -/

theorem firstDupKey_eq_none_iff {α : Type} (key : α → Nat) (xs : List α) (seen : List Nat) :
    firstDupKey key xs seen = none ↔
      (xs.map key).Nodup ∧ ∀ x ∈ xs, key x ∉ seen := by
  induction xs generalizing seen with
  | nil => simp [firstDupKey]
  | cons a t ih =>
    by_cases h : key a ∈ seen
    · rw [firstDupKey, if_pos h]
      simp only [reduceCtorEq, false_iff, not_and]
      intro _ hall
      exact absurd h (hall a (List.mem_cons_self a t))
    · rw [firstDupKey, if_neg h, ih]
      simp only [List.map_cons, List.nodup_cons, List.mem_map, List.mem_cons]
      constructor
      · rintro ⟨hnd, hseen⟩
        refine ⟨⟨?_, hnd⟩, ?_⟩
        · rintro ⟨x, hx, hkey⟩
          exact (hseen x hx) (Or.inl hkey)
        · rintro x (rfl | hx)
          · exact h
          · intro hs
            exact (hseen x hx) (Or.inr hs)
      · rintro ⟨⟨hna, hnd⟩, hseen⟩
        refine ⟨hnd, fun x hx hmem => ?_⟩
        rcases hmem with heq | hs
        · exact hna ⟨x, hx, heq⟩
        · exact (hseen x (Or.inr hx)) hs

theorem firstDupKey_nil_seen_eq_none_iff {α : Type} (key : α → Nat) (xs : List α) :
    firstDupKey key xs [] = none ↔ (xs.map key).Nodup := by
  rw [firstDupKey_eq_none_iff]
  simp

theorem head_any_iff (r : FileRecord) :
    r.versions.any (fun v => v.version_id == r.head_version_id) = true ↔
      ∃ v ∈ r.versions, v.version_id = r.head_version_id := by
  simp [List.any_eq_true]

theorem assert_ok_iff (r : FileRecord) :
    assert_file_invariants r = .ok () ↔
      ((∃ v ∈ r.versions, v.version_id = r.head_version_id) ∧
       (r.versions.map (fun v => v.version_id)).Nodup ∧
       (r.device_states.map (fun s => s.device_id)).Nodup) := by
  unfold assert_file_invariants
  cases h1 : firstDupKey (fun v => v.version_id) r.versions [] with
  | some d =>
    simp only [reduceCtorEq, false_iff, not_and]
    intro _ hnd
    rw [← firstDupKey_nil_seen_eq_none_iff (fun v => v.version_id) r.versions] at hnd
    exact absurd h1 (by simp [hnd])
  | none =>
    by_cases h2 : r.versions.any (fun v => v.version_id == r.head_version_id) = true
    · rw [if_pos h2]
      cases h3 : firstDupKey (fun s => s.device_id) r.device_states [] with
      | some d =>
        simp only [reduceCtorEq, false_iff, not_and]
        intro _ _ hnd
        rw [← firstDupKey_nil_seen_eq_none_iff (fun s => s.device_id) r.device_states] at hnd
        exact absurd h3 (by simp [hnd])
      | none =>
        simp only [true_iff]
        exact ⟨(head_any_iff r).mp h2,
          (firstDupKey_nil_seen_eq_none_iff _ _).mp h1,
          (firstDupKey_nil_seen_eq_none_iff _ _).mp h3⟩
    · rw [if_neg h2]
      simp only [reduceCtorEq, false_iff, not_and]
      intro hex
      exact absurd ((head_any_iff r).mpr hex) h2

theorem assert_ok_head_mem (r : FileRecord) (h : assert_file_invariants r = .ok ()) :
    ∃ v ∈ r.versions, v.version_id = r.head_version_id :=
  ((assert_ok_iff r).mp h).1

theorem assert_ok_nodup_ids (r : FileRecord) (h : assert_file_invariants r = .ok ()) :
    (r.versions.map (fun v => v.version_id)).Nodup :=
  ((assert_ok_iff r).mp h).2.1

/-- Claim C4: assert_file_invariants returns Ok exactly when the head
version id occurs in versions, the version ids are duplicate-free and the
device ids are duplicate-free; each error constructor is sound for its
failed condition, and the vestigial MultipleLocks error is never
returned. -/
theorem assert_file_invariants_spec (r : FileRecord) :
    (assert_file_invariants r = .ok () ↔
      ((∃ v ∈ r.versions, v.version_id = r.head_version_id) ∧
       (r.versions.map (fun v => v.version_id)).Nodup ∧
       (r.device_states.map (fun s => s.device_id)).Nodup)) ∧
    (∀ i, assert_file_invariants r = .error (.MissingHead i) →
      i = r.head_version_id ∧ ¬∃ v ∈ r.versions, v.version_id = r.head_version_id) ∧
    (∀ i, assert_file_invariants r = .error (.DuplicateVersion i) →
      ¬(r.versions.map (fun v => v.version_id)).Nodup) ∧
    (∀ i, assert_file_invariants r = .error (.MissingDevice i) →
      ¬(r.device_states.map (fun s => s.device_id)).Nodup) ∧
    (assert_file_invariants r ≠ .error .MultipleLocks) := by
  refine ⟨assert_ok_iff r, ?_, ?_, ?_, ?_⟩
  · intro i herr
    unfold assert_file_invariants at herr
    cases h1 : firstDupKey (fun v => v.version_id) r.versions [] with
    | some d => rw [h1] at herr; exact absurd herr (by simp)
    | none =>
      rw [h1] at herr
      by_cases h2 : r.versions.any (fun v => v.version_id == r.head_version_id) = true
      · rw [if_pos h2] at herr
        cases h3 : firstDupKey (fun s => s.device_id) r.device_states [] with
        | some d => rw [h3] at herr; exact absurd herr (by simp)
        | none => rw [h3] at herr; exact absurd herr (by simp)
      · rw [if_neg h2] at herr
        refine ⟨by injection herr with h; injection h with h; exact h.symm, fun hex => ?_⟩
        exact absurd ((head_any_iff r).mpr hex) h2
  · intro i herr
    unfold assert_file_invariants at herr
    cases h1 : firstDupKey (fun v => v.version_id) r.versions [] with
    | some d =>
      intro hnd
      rw [← firstDupKey_nil_seen_eq_none_iff (fun v => v.version_id) r.versions] at hnd
      exact absurd h1 (by simp [hnd])
    | none =>
      rw [h1] at herr
      by_cases h2 : r.versions.any (fun v => v.version_id == r.head_version_id) = true
      · rw [if_pos h2] at herr
        cases h3 : firstDupKey (fun s => s.device_id) r.device_states [] with
        | some d => rw [h3] at herr; exact absurd herr (by simp)
        | none => rw [h3] at herr; exact absurd herr (by simp)
      · rw [if_neg h2] at herr; exact absurd herr (by simp)
  · intro i herr
    unfold assert_file_invariants at herr
    cases h1 : firstDupKey (fun v => v.version_id) r.versions [] with
    | some d => rw [h1] at herr; exact absurd herr (by simp)
    | none =>
      rw [h1] at herr
      by_cases h2 : r.versions.any (fun v => v.version_id == r.head_version_id) = true
      · rw [if_pos h2] at herr
        cases h3 : firstDupKey (fun s => s.device_id) r.device_states [] with
        | some d =>
          intro hnd
          rw [← firstDupKey_nil_seen_eq_none_iff (fun s => s.device_id) r.device_states] at hnd
          exact absurd h3 (by simp [hnd])
        | none => rw [h3] at herr; exact absurd herr (by simp)
      · rw [if_neg h2] at herr; exact absurd herr (by simp)
  · intro herr
    unfold assert_file_invariants at herr
    cases h1 : firstDupKey (fun v => v.version_id) r.versions [] with
    | some d => rw [h1] at herr; exact absurd herr (by simp)
    | none =>
      rw [h1] at herr
      by_cases h2 : r.versions.any (fun v => v.version_id == r.head_version_id) = true
      · rw [if_pos h2] at herr
        cases h3 : firstDupKey (fun s => s.device_id) r.device_states [] with
        | some d => rw [h3] at herr; exact absurd herr (by simp)
        | none => rw [h3] at herr; exact absurd herr (by simp)
      · rw [if_neg h2] at herr; exact absurd herr (by simp)

/-- Claim C4 witness: the spec applied to the concrete valid record of the
fixtures. -/
theorem assert_file_invariants_spec_witness :
    (∃ v ∈ recFx.versions, v.version_id = recFx.head_version_id) ∧
    (recFx.versions.map (fun v => v.version_id)).Nodup ∧
    (recFx.device_states.map (fun s => s.device_id)).Nodup :=
  (assert_file_invariants_spec recFx).1.mp (by rfl)

/-- Claim C5: the check_conflict truth table. Allowed exactly when the
caller device holds the current lock, or no lock is present and the base
head equals the current head; LockedBy exactly the holder of a lock held
by a different device; Conflict, carrying the current head and the base
head, exactly when no lock is present and the base head differs. -/
theorem check_conflict_spec (file : FileRecord) (dev base : Nat) :
    (check_conflict file dev base = .Allowed ↔
      ((∃ lk, file.lock = some lk ∧ lk.owner_device_id = dev) ∨
       (file.lock = none ∧ base = file.head_version_id))) ∧
    (∀ h, check_conflict file dev base = .LockedBy h ↔
      (∃ lk, file.lock = some lk ∧ lk.owner_device_id = h ∧ h ≠ dev)) ∧
    (∀ ch bh, check_conflict file dev base = .Conflict ch bh ↔
      (file.lock = none ∧ base ≠ file.head_version_id ∧
       ch = file.head_version_id ∧ bh = base)) := by
  unfold check_conflict
  cases hl : file.lock with
  | some lk =>
    by_cases ho : lk.owner_device_id = dev
    · simp [ho]
    · simp [ho]
  | none =>
    by_cases hb : base = file.head_version_id
    · simp [hb]
    · simp [hb]
      intro ch bh
      constructor
      · rintro ⟨rfl, rfl⟩
        exact ⟨rfl, rfl⟩
      · rintro ⟨rfl, rfl⟩
        exact ⟨rfl, rfl⟩

/-- Claim C5 witness: on an unlocked record with a matching base head the
check is Allowed. -/
theorem check_conflict_spec_witness :
    check_conflict recLockFx 6 recLockFx.head_version_id = .Allowed :=
  (check_conflict_spec recLockFx 6 recLockFx.head_version_id).1.mpr (Or.inr ⟨rfl, rfl⟩)

/-- Claim C6: acquire_lock yields Acquired with a fresh exclusive lock
owned by the requester and carrying the record file id when unlocked;
Denied with the holder and acquisition time whenever a matching lock
exists, for every requesting device including the holder; and the
LockMismatch error exactly when an existing lock names a different
file. -/
theorem acquire_lock_spec (file : FileRecord) (dev : Nat) (user : String)
    (req : LockRequestKind) (al : Bool) (fresh : Nat) (now : Int) :
    (file.lock = none →
      acquire_lock file dev user req al fresh now =
        .ok (.Acquired { lock_id := fresh, file_id := file.file_id,
                         owner_device_id := dev, owner_user_id := user, mode := .Exclusive,
                         acquired_at := now, auto_lock := al, expires_at := none })) ∧
    (∀ lk, file.lock = some lk → lk.file_id = file.file_id →
      acquire_lock file dev user req al fresh now =
        .ok (.Denied { holder_device := lk.owner_device_id,
                       acquired_at := lk.acquired_at })) ∧
    (acquire_lock file dev user req al fresh now = .error .LockMismatch ↔
      ∃ lk, file.lock = some lk ∧ lk.file_id ≠ file.file_id) := by
  unfold acquire_lock
  cases hl : file.lock with
  | none => simp
  | some lk =>
    by_cases hf : lk.file_id = file.file_id
    · simp [hf]
    · simp [hf]

/-- Claim C6 witness: acquiring on the unlocked fixture record. -/
theorem acquire_lock_spec_witness :
    acquire_lock recLockFx 5 "u" .Manual false 77 9 =
      .ok (.Acquired { lock_id := 77, file_id := recLockFx.file_id, owner_device_id := 5,
                       owner_user_id := "u", mode := .Exclusive, acquired_at := 9,
                       auto_lock := false, expires_at := none }) :=
  (acquire_lock_spec recLockFx 5 "u" .Manual false 77 9).1 rfl

/-- Claim C7 counterexample: on a record whose lock is owned by the
calling device but carries a mismatched file id, release_lock returns the
LockMismatch error instead of Ok, and does not clear the lock; the claim
that a present lock owned by the caller is always cleared, and that no
call errors, is false. -/
theorem release_lock_mismatch_cex :
    (∃ lk, recMisFx.lock = some lk ∧ lk.owner_device_id = 5) ∧
    release_lock recMisFx 5 = .error .LockMismatch ∧
    ¬∃ r, release_lock recMisFx 5 = .ok r := by
  refine ⟨⟨lkMisFx, rfl, rfl⟩, rfl, ?_⟩
  rintro ⟨r, hr⟩
  rw [show release_lock recMisFx 5 = .error .LockMismatch from rfl] at hr
  exact Except.noConfusion hr

/-- Claim C7 amended: release_lock clears the lock exactly when it is
present, matches the record file id and is owned by the caller; a present
lock with a different file id yields the LockMismatch error with the
record unchanged; otherwise, non-holder or no lock, the call is a silent
no-op returning the record unchanged. -/
theorem release_lock_spec (file : FileRecord) (dev : Nat) :
    (file.lock = none → release_lock file dev = .ok file) ∧
    (∀ lk, file.lock = some lk → lk.file_id ≠ file.file_id →
      release_lock file dev = .error .LockMismatch) ∧
    (∀ lk, file.lock = some lk → lk.file_id = file.file_id → lk.owner_device_id = dev →
      release_lock file dev = .ok { file with lock := none }) ∧
    (∀ lk, file.lock = some lk → lk.file_id = file.file_id → lk.owner_device_id ≠ dev →
      release_lock file dev = .ok file) := by
  unfold release_lock
  cases hl : file.lock with
  | none => simp
  | some lk =>
    by_cases hf : lk.file_id = file.file_id
    · by_cases ho : lk.owner_device_id = dev
      · simp [hf, ho]
      · simp [hf, ho]
    · simp [hf]

/-- Claim C7 witness: the holder releases a matching lock and the record
comes back cleared. -/
theorem release_lock_spec_witness :
    release_lock recLockedFx 5 = .ok { recLockedFx with lock := none } :=
  (release_lock_spec recLockedFx 5).2.2.1 lkOkFx rfl rfl rfl

/-! Lemmas about the transfer progress tracker. -/

theorem mem_completed_foldl (l : List ChunkRef) (p : TransferProgress) (o : Nat)
    (h : o ∈ p.completed_chunks) :
    o ∈ (l.foldl (fun pr c => pr.mark_done c.offset) p).completed_chunks := by
  induction l generalizing p with
  | nil => simpa using h
  | cons c t ih =>
    simp only [List.foldl_cons]
    exact ih _ (Finset.mem_insert_of_mem h)

theorem all_completed_foldl (l : List ChunkRef) (p : TransferProgress) :
    ∀ c ∈ l, c.offset ∈ (l.foldl (fun pr c => pr.mark_done c.offset) p).completed_chunks := by
  induction l generalizing p with
  | nil => intro c hc; cases hc
  | cons a t ih =>
    intro c hc
    simp only [List.foldl_cons]
    rcases List.mem_cons.mp hc with rfl | hc
    · exact mem_completed_foldl t _ _ (Finset.mem_insert_self _ _)
    · exact ih _ c hc

/-- Claim C9: mark_done is idempotent, removes the offset from the failed
set, and once mark_done has run over every chunk offset of the plan,
next_chunk returns none and is_complete holds. -/
theorem transfer_progress_spec (plan : TransferPlan) (p : TransferProgress) (off : Nat) :
    (p.mark_done off).mark_done off = p.mark_done off ∧
    off ∉ (p.mark_done off).failed_chunks ∧
    next_chunk plan (plan.chunks.foldl (fun pr c => pr.mark_done c.offset) p) = none ∧
    (plan.chunks.foldl (fun pr c => pr.mark_done c.offset) p).is_complete plan = true := by
  refine ⟨?_, ?_, ?_, ?_⟩
  · cases p with
    | mk sid st comp fail =>
      simp [TransferProgress.mark_done, Finset.insert_idem, Finset.erase_idem]
  · exact Finset.not_mem_erase off p.failed_chunks
  · refine List.find?_eq_none.mpr (fun c hc => ?_)
    simp [all_completed_foldl plan.chunks p c hc]
  · simp only [TransferProgress.is_complete, List.all_eq_true]
    intro c hc
    simp [all_completed_foldl plan.chunks p c hc]

/-- Claim C9 witness: the spec applied to the two-chunk fixture plan. -/
theorem transfer_progress_spec_witness :
    next_chunk planFx (planFx.chunks.foldl (fun pr c => pr.mark_done c.offset) progFx) = none :=
  (transfer_progress_spec planFx progFx 0).2.2.1

/-- Claim C1 counterexample: appending a version whose record duplicates
an existing version id makes validation fail, yet the store keeps the
mutated record, so the stored FileRecord is not as it was before the
call. -/
theorem append_version_not_atomic_cex :
    (append_version stFx 1 20 (verFx 10 5)).1 = .error (.Model (.DuplicateVersion 10)) ∧
    alGet (append_version stFx 1 20 (verFx 10 5)).2.files 1 ≠ some recFx := by
  exact ⟨rfl, by decide⟩

/-- Claim C1 amended: upsert_file_record validates before touching the map
and so returns the error with the store unchanged, but append_version and
rollback_to_version mutate in place first; when validation then fails they
return the validation error while the stored record keeps the new head and
the appended version, so the partial state stays observable. -/
theorem mutation_no_rollback_spec (st : LocalMetadataStore) (r rec : FileRecord)
    (f vid target : Nat) (vr nv : VersionRecord) (e1 e2 e3 : ModelError) :
    (assert_file_invariants r = .error e1 →
      upsert_file_record st r = (.error (.Model e1), st)) ∧
    (alGet st.files f = some rec →
      assert_file_invariants (appendMutated rec vid vr) = .error e2 →
      append_version st f vid vr =
        (.error (.Model e2),
         { st with files := alSet st.files f (appendMutated rec vid vr) })) ∧
    (r.versions.any (fun v => v.version_id == target) = true →
      assert_file_invariants (rollbackMutated r nv) = .error e3 →
      rollback_to_version r target nv = (.error (.Model e3), rollbackMutated r nv)) := by
  refine ⟨?_, ?_, ?_⟩
  · intro h
    simp only [upsert_file_record, h]
  · intro hget hval
    simp only [appendMutated] at hval
    simp only [append_version, hget, hval, appendMutated]
  · intro hany hval
    simp only [rollbackMutated] at hval
    simp only [rollback_to_version, hany, hval, if_true, rollbackMutated]

/-- Claim C1 witness: the amended behaviour at the concrete duplicate
append of the counterexample store. -/
theorem mutation_no_rollback_spec_witness :
    append_version stFx 1 20 (verFx 10 5) =
      (.error (.Model (.DuplicateVersion 10)),
       { stFx with files := alSet stFx.files 1 (appendMutated recFx 20 (verFx 10 5)) }) :=
  (mutation_no_rollback_spec stFx recFx recFx 1 20 10 (verFx 10 5) (verFx 10 5)
      (.DuplicateVersion 10) (.DuplicateVersion 10) (.DuplicateVersion 10)).2.1 rfl rfl

/-- Claim C2 counterexample: set_lock with a lock whose file_id 2 differs
from the record file_id 1 succeeds, and the stored record afterwards holds
the mismatched lock, so the lock file id agreement does not hold after
every successful mutating operation. -/
theorem set_lock_mismatch_cex :
    (set_lock stFx 1 (some lkMisFx)).1 = .ok () ∧
    alGet (set_lock stFx 1 (some lkMisFx)).2.files 1 = some recMisFx ∧
    lkMisFx.file_id ≠ recMisFx.file_id := by
  exact ⟨rfl, rfl, by decide⟩

/-- Claim C2 amended: validation never inspects the lock field, so
set_lock on a record whose other invariants hold succeeds for every lock,
matching or mismatched, and stores exactly the given lock; the lock file
id agreement is not an invariant the store maintains. -/
theorem set_lock_no_lock_check_spec (st : LocalMetadataStore) (f : Nat) (rec : FileRecord)
    (lk : Option LockRecord) (hget : alGet st.files f = some rec)
    (hval : assert_file_invariants rec = .ok ()) :
    set_lock st f lk =
      (.ok (), { st with files := alSet st.files f { rec with lock := lk } }) := by
  have hsame : assert_file_invariants { rec with lock := lk } =
      assert_file_invariants rec := rfl
  simp only [set_lock, hget, hsame, hval]

/-- Claim C2 witness: the amended behaviour at the concrete mismatched
lock. -/
theorem set_lock_no_lock_check_spec_witness :
    set_lock stFx 1 (some lkMisFx) =
      (.ok (), { stFx with files := alSet stFx.files 1 { recFx with lock := some lkMisFx } }) :=
  set_lock_no_lock_check_spec stFx 1 recFx (some lkMisFx) rfl rfl

/-! Lemmas about the path alias check. -/

theorem findSome?_eq_some_of_unique {α β : Type} (f : α → Option β) (l : List α) (b : β)
    (hex : ∃ x ∈ l, f x = some b)
    (huniq : ∀ x ∈ l, ∀ c, f x = some c → c = b) :
    l.findSome? f = some b := by
  induction l with
  | nil =>
    rcases hex with ⟨x, hx, _⟩
    cases hx
  | cons a t ih =>
    cases hfa : f a with
    | some c =>
      rw [List.findSome?_cons_of_isSome t (by rw [hfa]; rfl), hfa]
      exact congrArg some (huniq a (List.mem_cons_self a t) c hfa)
    | none =>
      rw [List.findSome?_cons_of_isNone t (by rw [hfa]; rfl)]
      apply ih
      · rcases hex with ⟨x, hx, hfx⟩
        rcases List.mem_cons.mp hx with rfl | hxt
        · rw [hfa] at hfx
          exact absurd hfx (by simp)
        · exact ⟨x, hxt, hfx⟩
      · intro x hx c hc
        exact huniq x (List.mem_cons_of_mem a hx) c hc

/-- Claim C8: bind_path is alias-exclusive across files. When a registry
entry of a unique other file fA holds the path case-insensitively, binding
it for fB fails with PathAlreadyBound fA and the store is unchanged; the
uniqueness hypothesis discharges the unspecified HashMap iteration order.
When no other file holds the path, the call fails with NotFound if fB has
no registry entry and the store is unchanged, and otherwise succeeds,
replacing the entry of fB with the matching binding refreshed or a new
binding appended. -/
theorem bind_path_spec (st : LocalMetadataStore) (fB fA : Nat)
    (eA eB : LocalRegistryEntry) (path : String) (w : Bool) (now : Int) :
    ((fA, eA) ∈ st.registry → fA ≠ fB →
      (eA.paths.any fun b => eqIgnoreAsciiCase b.path path) = true →
      (∀ pr ∈ st.registry, pr.1 ≠ fB →
        (pr.2.paths.any fun b => eqIgnoreAsciiCase b.path path) = true → pr.1 = fA) →
      bind_path st fB path w now = (.error (.PathAlreadyBound fA), st)) ∧
    ((∀ pr ∈ st.registry, pr.1 ≠ fB →
        (pr.2.paths.any fun b => eqIgnoreAsciiCase b.path path) = false) →
      (alGet st.registry fB = none →
        bind_path st fB path w now = (.error (.NotFound fB), st)) ∧
      (alGet st.registry fB = some eB →
        bind_path st fB path w now =
          (.ok (), { st with registry := alSet st.registry fB (bindApply eB path w now) }))) := by
  constructor
  · intro hmem hne hany huniq
    have hconf : pathConflict st fB path = some fA := by
      apply findSome?_eq_some_of_unique
      · exact ⟨(fA, eA), hmem, by simp [hne, hany]⟩
      · rintro ⟨g1, g2⟩ hx c hc
        dsimp only at hc
        by_cases hcnd :
            (g1 != fB && g2.paths.any (fun b => eqIgnoreAsciiCase b.path path)) = true
        · rw [if_pos hcnd] at hc
          injection hc with hc
          rw [Bool.and_eq_true] at hcnd
          rcases hcnd with ⟨hg1, hg2⟩
          rw [← hc]
          exact huniq (g1, g2) hx (bne_iff_ne.mp hg1) hg2
        · rw [if_neg hcnd] at hc
          exact Option.noConfusion hc
    simp only [bind_path, hconf]
  · intro hnc
    have hconf : pathConflict st fB path = none := by
      rw [pathConflict]
      refine List.findSome?_eq_none_iff.mpr (fun pr hpr => ?_)
      by_cases heq : pr.1 = fB
      · simp [heq]
      · simp [heq, hnc pr hpr heq]
    refine ⟨fun hget => ?_, fun hget => ?_⟩
    · simp only [bind_path, hconf, hget]
    · simp only [bind_path, hconf, hget]

/-- Claim C8 witness: binding path a for file 2 while file 1 already binds
path A fails with PathAlreadyBound 1 and leaves the store unchanged. -/
theorem bind_path_spec_witness :
    bind_path stRegFx 2 "a" true 5 = (.error (.PathAlreadyBound 1), stRegFx) :=
  (bind_path_spec stRegFx 2 1 regEntryFx regEntry2Fx "a" true 5).1
    (by decide) (by decide) (by decide) (by decide)

/-! Lemmas about retention. -/

theorem countP_le_countP_add_countP {α : Type} (l : List α) (p q r : α → Bool)
    (h : ∀ x ∈ l, p x = true → q x = true ∨ r x = true) :
    l.countP p ≤ l.countP q + l.countP r := by
  induction l with
  | nil => simp
  | cons a t ih =>
    have ht := fun x hx => h x (List.mem_cons_of_mem a hx)
    have hih := ih ht
    have ha := h a (List.mem_cons_self a t)
    simp only [List.countP_cons]
    by_cases hp : p a = true
    · rcases ha hp with hk | hk
      · by_cases hrb : r a = true <;> simp [hp, hk, hrb] <;> omega
      · by_cases hqb : q a = true <;> simp [hp, hk, hqb] <;> omega
    · have hp' : p a = false := by
        revert hp
        cases p a <;> simp
      by_cases hqb : q a = true <;> by_cases hrb : r a = true <;>
        simp [hp', hqb, hrb] <;> omega

theorem countP_version_id_le_one (l : List VersionRecord)
    (h : (l.map (fun v => v.version_id)).Nodup) (i : Nat) :
    l.countP (fun v => v.version_id == i) ≤ 1 := by
  calc l.countP (fun v => v.version_id == i)
      = (l.map (fun v => v.version_id)).countP (fun x => x == i) := by
        rw [List.countP_map]
        rfl
    _ = (l.map (fun v => v.version_id)).count i := (List.count_eq_countP i _).symm
    _ ≤ 1 := List.nodup_iff_count_le_one.mp h i

/-- Claim C3 counterexample: a valid record whose head is strictly older
than the retention boundary. The call succeeds and keeps all three
versions although max_versions is two, and all timestamps are pairwise
distinct, so no boundary ties are in play. -/
theorem apply_retention_bound_cex :
    apply_retention rec3Fx pol3Fx 100 = some (.ok (), rec3Fx) ∧
    (rec3Fx.versions.map (fun v => v.timestamp)).Nodup ∧
    ¬(rec3Fx.versions.length ≤ max 1 pol3Fx.max_versions) := by
  exact ⟨rfl, by decide, by decide⟩

/-- Claim C3 amended: for every valid FileRecord and policy, a successful
apply_retention preserves the head field and keeps the head version in
versions, and keeps at most max(1, max_versions) + 1 versions, the
possible extra being the head when it is strictly older than the
boundary, except when several retained versions share a timestamp: ties
at the boundary are all kept together. -/
theorem apply_retention_spec (file : FileRecord) (policy : VersionRetention) (now : Int)
    (f2 : FileRecord) (hval : assert_file_invariants file = .ok ())
    (hsucc : apply_retention file policy now = some (.ok (), f2)) :
    f2.head_version_id = file.head_version_id ∧
    (∃ v ∈ f2.versions, v.version_id = file.head_version_id) ∧
    (f2.versions.length ≤ max 1 policy.max_versions + 1 ∨
      ∃ t : Int, 2 ≤ f2.versions.countP (fun v => v.timestamp == t)) := by
  unfold apply_retention at hsucc
  cases hc : countStep (ageStep file policy now) policy.max_versions with
  | none =>
    rw [hc] at hsucc
    exact absurd hsucc (by simp)
  | some f2' =>
    simp only [hc] at hsucc
    cases ha : assert_file_invariants f2' with
    | error e =>
      simp [ha] at hsucc
    | ok u =>
      cases u
      simp only [ha, Option.some.injEq, Prod.mk.injEq, true_and] at hsucc
      subst hsucc
      have hhead1 : (ageStep file policy now).head_version_id = file.head_version_id := by
        unfold ageStep
        cases policy.max_age <;> rfl
      have hnd1 : ((ageStep file policy now).versions.map (fun v => v.version_id)).Nodup := by
        have h0 := assert_ok_nodup_ids file hval
        unfold ageStep
        cases policy.max_age with
        | none => exact h0
        | some a =>
          dsimp only
          exact ((List.filter_sublist _).map _).nodup h0
      unfold countStep at hc
      by_cases hlen : (ageStep file policy now).versions.length > policy.max_versions
      · rw [if_pos hlen] at hc
        cases hget : (sortByTimestamp (ageStep file policy now).versions)[(ageStep file policy now).versions.length - policy.max_versions]? with
        | none =>
          rw [hget] at hc
          exact absurd hc (by simp)
        | some bv =>
          rw [hget] at hc
          simp only [Option.some.injEq] at hc
          obtain ⟨hkf, hbv⟩ := List.getElem?_eq_some_iff.mp hget
          have hperm : List.Perm (sortByTimestamp (ageStep file policy now).versions)
              (ageStep file policy now).versions := List.perm_insertionSort _ _
          have hlenl : (sortByTimestamp (ageStep file policy now).versions).length =
              (ageStep file policy now).versions.length := hperm.length_eq
          have hm1 : 1 ≤ policy.max_versions := by omega
          have hsorted : (sortByTimestamp (ageStep file policy now).versions).Pairwise
              (fun a b => a.timestamp ≤ b.timestamp) := List.sorted_insertionSort _ _
          have hndl : ((sortByTimestamp (ageStep file policy now).versions).map
              (fun v => v.version_id)).Nodup := (hperm.map _).nodup_iff.mpr hnd1
          have hf2v' : f2'.versions = (sortByTimestamp (ageStep file policy now).versions).filter
              (fun v => v.version_id == file.head_version_id ||
                decide (bv.timestamp ≤ v.timestamp)) := by
            rw [← hc]
            dsimp only
            rw [hhead1]
          have hf2h : f2'.head_version_id = file.head_version_id := by
            rw [← hc]
            exact hhead1
          refine ⟨hf2h, ?_, ?_⟩
          · obtain ⟨v, hv, hvid⟩ := assert_ok_head_mem f2' ha
            exact ⟨v, hv, by rw [hvid, hf2h]⟩
          · by_cases hties : ∃ t : Int, 2 ≤ f2'.versions.countP (fun v => v.timestamp == t)
            · exact Or.inr hties
            · left
              push_neg at hties
              have hlen2 : f2'.versions.length =
                  (sortByTimestamp (ageStep file policy now).versions).countP
                    (fun v => v.version_id == file.head_version_id ||
                      decide (bv.timestamp ≤ v.timestamp)) := by
                rw [hf2v', ← List.countP_eq_length_filter]
              have h1 : (sortByTimestamp (ageStep file policy now).versions).countP
                    (fun v => v.version_id == file.head_version_id ||
                      decide (bv.timestamp ≤ v.timestamp)) ≤
                  (sortByTimestamp (ageStep file policy now).versions).countP
                    (fun v => decide (bv.timestamp ≤ v.timestamp)) +
                  (sortByTimestamp (ageStep file policy now).versions).countP
                    (fun v => v.version_id == file.head_version_id) := by
                apply countP_le_countP_add_countP
                intro x _ hx
                rw [Bool.or_eq_true] at hx
                rcases hx with h | h
                · exact Or.inr h
                · exact Or.inl h
              have h2 : (sortByTimestamp (ageStep file policy now).versions).countP
                  (fun v => v.version_id == file.head_version_id) ≤ 1 :=
                countP_version_id_le_one _ hndl _
              have h3 : (sortByTimestamp (ageStep file policy now).versions).countP
                    (fun v => decide (bv.timestamp ≤ v.timestamp)) ≤
                  (sortByTimestamp (ageStep file policy now).versions).countP
                    (fun v => decide (bv.timestamp < v.timestamp)) +
                  (sortByTimestamp (ageStep file policy now).versions).countP
                    (fun v => v.timestamp == bv.timestamp) := by
                apply countP_le_countP_add_countP
                intro x _ hx
                rw [decide_eq_true_eq] at hx
                rcases lt_or_eq_of_le hx with hlt | heq
                · exact Or.inl (by simpa using hlt)
                · exact Or.inr (beq_iff_eq.mpr heq.symm)
              have hbvmem : bv ∈ (sortByTimestamp (ageStep file policy now).versions).drop
                  ((ageStep file policy now).versions.length - policy.max_versions) := by
                rw [List.drop_eq_getElem_cons hkf, hbv]
                exact List.mem_cons_self _ _
              have h4 : (sortByTimestamp (ageStep file policy now).versions).countP
                  (fun v => decide (bv.timestamp < v.timestamp)) ≤
                  policy.max_versions - 1 := by
                have htake : ((sortByTimestamp (ageStep file policy now).versions).take
                    ((ageStep file policy now).versions.length - policy.max_versions)).countP
                    (fun v => decide (bv.timestamp < v.timestamp)) = 0 := by
                  rw [List.countP_eq_zero]
                  intro x hx
                  have hxle : x.timestamp ≤ bv.timestamp :=
                    hsorted.rel_of_mem_take_of_mem_drop hx hbvmem
                  simp only [decide_eq_true_eq]
                  exact not_lt.mpr hxle
                have hdrop : ((sortByTimestamp (ageStep file policy now).versions).drop
                    ((ageStep file policy now).versions.length - policy.max_versions)).countP
                    (fun v => decide (bv.timestamp < v.timestamp)) ≤
                    (sortByTimestamp (ageStep file policy now).versions).length -
                      ((ageStep file policy now).versions.length - policy.max_versions) - 1 := by
                  rw [List.drop_eq_getElem_cons hkf, List.countP_cons, hbv]
                  have hle := List.countP_le_length
                    (p := fun v => decide (bv.timestamp < v.timestamp))
                    (l := (sortByTimestamp (ageStep file policy now).versions).drop
                      ((ageStep file policy now).versions.length - policy.max_versions + 1))
                  have hld := List.length_drop
                    ((ageStep file policy now).versions.length - policy.max_versions + 1)
                    (sortByTimestamp (ageStep file policy now).versions)
                  simp only [lt_self_iff_false, decide_False, Bool.false_eq_true,
                    if_false, add_zero]
                  omega
                have hsplitc : (sortByTimestamp (ageStep file policy now).versions).countP
                    (fun v => decide (bv.timestamp < v.timestamp)) =
                    ((sortByTimestamp (ageStep file policy now).versions).take
                      ((ageStep file policy now).versions.length - policy.max_versions)).countP
                      (fun v => decide (bv.timestamp < v.timestamp)) +
                    ((sortByTimestamp (ageStep file policy now).versions).drop
                      ((ageStep file policy now).versions.length - policy.max_versions)).countP
                      (fun v => decide (bv.timestamp < v.timestamp)) := by
                  rw [← List.countP_append, List.take_append_drop]
                rw [hsplitc, htake]
                omega
              have h5 : (sortByTimestamp (ageStep file policy now).versions).countP
                  (fun v => v.timestamp == bv.timestamp) ≤ 1 := by
                have hcnt : f2'.versions.countP (fun v => v.timestamp == bv.timestamp) =
                    (sortByTimestamp (ageStep file policy now).versions).countP
                      (fun v => v.timestamp == bv.timestamp) := by
                  rw [hf2v', List.countP_filter]
                  apply List.countP_congr
                  intro x hx
                  cases hxb : (x.timestamp == bv.timestamp) with
                  | false => simp [hxb]
                  | true =>
                    have hxeq : x.timestamp = bv.timestamp := beq_iff_eq.mp hxb
                    simp [hxb, hxeq]
                have hlt2 := hties bv.timestamp
                omega
              rw [Nat.max_eq_right hm1, hlen2]
              omega
      · rw [if_neg hlen] at hc
        simp only [Option.some.injEq] at hc
        push_neg at hlen
        refine ⟨?_, ?_, Or.inl ?_⟩
        · rw [← hc]
          exact hhead1
        · obtain ⟨v, hv, hvid⟩ := assert_ok_head_mem f2' ha
          refine ⟨v, hv, ?_⟩
          rw [hvid, ← hc]
          exact hhead1
        · have hl2 : f2'.versions.length ≤ policy.max_versions := by
            rw [← hc]
            exact hlen
          have hmax := Nat.le_max_right 1 policy.max_versions
          omega

/-- Claim C3 witness: the amended statement at a concrete single-version
record that retention leaves untouched. -/
theorem apply_retention_spec_witness :
    recFx.head_version_id = recFx.head_version_id ∧
    (∃ v ∈ recFx.versions, v.version_id = recFx.head_version_id) ∧
    (recFx.versions.length ≤ max 1 pol3Fx.max_versions + 1 ∨
      ∃ t : Int, 2 ≤ recFx.versions.countP (fun v => v.timestamp == t)) :=
  apply_retention_spec recFx pol3Fx 0 recFx rfl rfl

/-- Claim C10: on a valid single-version record, apply_retention with
max_versions zero reaches the out-of-bounds indexing at versions of index
length minus zero and panics, modelled by Option.none; it does not return
a Result there. -/
theorem apply_retention_zero_max_versions_oob :
    assert_file_invariants recFx = .ok () ∧
    recFx.versions.length = 1 ∧
    apply_retention recFx pol0Fx 0 = none :=
  ⟨rfl, rfl, rfl⟩

end Atrius
